import Mathlib

/-!
Verification development for the shark-list membership service.

The embedding below translates the Python source of the service into Lean:

* `app/services/sync_service.py` — the cooloff governor `can_sync` and the
  reconciliation engine `sync_list_members`;
* `app/services/twitter_service.py` — the remote list client
  (`add_to_list`, `remove_from_list`, `get_list_members`);
* `app/routes/admin.py` — the approval workflow (`approve`);
* `app/routes/public.py` — the public submission handler (`submit`);
* `app/models.py` — the `Submission`, `ListMember` and `SyncLog` records.

Database rows become Lean structures, tables become lists of rows, wall-clock
times become integers counted in microseconds (the resolution of Python
datetimes), and every fallible remote call is modelled by passing in the
outcome of the HTTP exchange (a status code with payload, or a network
error) so that the surrounding control flow can be translated literally.
-/

namespace SharkList

/-- Microseconds per minute: Python datetimes carry microsecond resolution,
and `timedelta(minutes=m)` is `m` of these. -/
def usPerMinute : Int := 60000000

/-! ## Records (from `app/models.py`) -/

/-- Status constants of `SyncLog` in `app/models.py`. -/
def STATUS_IN_PROGRESS : String := "in_progress"

/-- SyncLog status on success. -/
def STATUS_COMPLETED : String := "completed"

/-- SyncLog status on failure. -/
def STATUS_FAILED : String := "failed"

/-- Source constants of `ListMember` in `app/models.py`. -/
def SOURCE_APP_SUBMITTED : String := "app_submitted"

/-- Provenance for members already on the remote list with no submission. -/
def SOURCE_PRE_EXISTING : String := "pre_existing"

/-- Provenance for members created by a bulk import. -/
def SOURCE_BULK_ADDED : String := "bulk_added"

/-- Status constants of `Submission` in `app/models.py`. -/
def STATUS_PENDING : String := "pending"

/-- Submission status after approval. -/
def STATUS_APPROVED : String := "approved"

/-- Submission status after rejection. -/
def STATUS_REJECTED : String := "rejected"

/-- One row of the `sync_logs` table (`SyncLog` in `app/models.py`). -/
structure SyncLogRec where
  sync_started_at : Int
  sync_completed_at : Option Int := none
  members_fetched : Nat := 0
  members_added : Nat := 0
  members_updated : Nat := 0
  members_removed : Nat := 0
  status : String
  error_message : Option String := none
deriving Repr, DecidableEq

/-! ## The cooloff governor (`SyncService.can_sync`) -/

/-- `SyncService.can_sync` from `app/services/sync_service.py`.

The `sync_logs` list stands for the table ordered by `sync_started_at`
descending, as produced by the query in the source, so its head is the most
recent run.  `now` is `datetime.utcnow()` and `cooloffMinutes` is the
`SYNC_COOLOFF_MINUTES` configuration value.  Durations are integers in
microseconds; `int(remaining.total_seconds() / 60)` truncates toward zero,
which on the (positive) remaining time is division by `usPerMinute`. -/
def can_sync (sync_logs : List SyncLogRec) (now : Int) (cooloffMinutes : Int) :
    Bool × String :=
  match sync_logs with
  | [] => (true, "No previous sync found")
  | last_sync :: _ =>
    let cooloff_delta := cooloffMinutes * usPerMinute
    let time_since_last_sync := now - last_sync.sync_started_at
    if time_since_last_sync < cooloff_delta then
      let remaining := cooloff_delta - time_since_last_sync
      let minutes_remaining := remaining / usPerMinute
      (false, s!"Please wait {minutes_remaining} more minute(s) before syncing again")
    else
      (true, "Sync allowed")

/-- Default of `Config.SYNC_COOLOFF_MINUTES` in `config.py`. -/
def SYNC_COOLOFF_MINUTES : Int := 5

/-- C4: with no previous sync run `can_sync` allows; with a most recent run it
allows exactly when `now - lastStart` has reached the cooloff interval (so the
edge itself is allowed, in particular at the default of 5 minutes), and on
disallow the message reports the remaining wait in whole minutes. -/
theorem can_sync_cooloff_spec (now cm : Int) :
    ((can_sync [] now cm).1 = true)
    ∧ (∀ (l : SyncLogRec) (rest : List SyncLogRec),
        ((can_sync (l :: rest) now cm).1 = true
          ↔ cm * usPerMinute ≤ now - l.sync_started_at))
    ∧ (∀ (l : SyncLogRec) (rest : List SyncLogRec),
        now - l.sync_started_at < cm * usPerMinute →
        can_sync (l :: rest) now cm =
          (false, s!"Please wait {(cm * usPerMinute - (now - l.sync_started_at)) / usPerMinute} more minute(s) before syncing again"))
    ∧ (∀ (l : SyncLogRec) (rest : List SyncLogRec),
        (can_sync (l :: rest) (l.sync_started_at + SYNC_COOLOFF_MINUTES * usPerMinute)
          SYNC_COOLOFF_MINUTES).1 = true) := by
  refine ⟨rfl, ?_, ?_, ?_⟩
  · intro l rest
    simp only [can_sync]
    split
    · simp only [Bool.false_eq_true, false_iff, not_le]
      omega
    · simp only [true_iff]
      omega
  · intro l rest h
    simp only [can_sync, if_pos h]
  · intro l rest
    simp only [can_sync]
    split
    · omega
    · rfl

/-- Witness for `can_sync_cooloff_spec`: a run started at time 0, checked one
minute later with a five-minute cooloff, is disallowed with four whole minutes
reported. -/
theorem can_sync_cooloff_spec_witness :
    can_sync [{ sync_started_at := 0, status := "completed" }] usPerMinute 5 =
      (false, "Please wait 4 more minute(s) before syncing again") := by
  have h := (can_sync_cooloff_spec usPerMinute 5).2.2.1
    { sync_started_at := 0, status := "completed" } [] (by norm_num [usPerMinute])
  simpa [usPerMinute] using h

/-- C10: when the most recent run is strictly within the cooloff interval but
less than one full minute of wait remains, `can_sync` still disallows while the
message reports 0 remaining minutes: the remaining wait is floored to whole
minutes, never rounded up. -/
theorem can_sync_floors_remaining_minutes (now cm : Int) (l : SyncLogRec)
    (rest : List SyncLogRec)
    (hwithin : now - l.sync_started_at < cm * usPerMinute)
    (hclose : cm * usPerMinute - (now - l.sync_started_at) < usPerMinute) :
    can_sync (l :: rest) now cm =
      (false, "Please wait 0 more minute(s) before syncing again") := by
  have h := (can_sync_cooloff_spec now cm).2.2.1 l rest hwithin
  have hz : (cm * usPerMinute - (now - l.sync_started_at)) / usPerMinute = 0 := by
    apply Int.ediv_eq_zero_of_lt <;> omega
  rw [h, hz]
  rfl

/-- Witness for `can_sync_floors_remaining_minutes`: 4 minutes 30 seconds after
a run started, with the 5-minute cooloff, syncing is refused but the message
says 0 more minutes. -/
theorem can_sync_floors_remaining_minutes_witness :
    can_sync [{ sync_started_at := 0, status := "completed" }] 270000000 5 =
      (false, "Please wait 0 more minute(s) before syncing again") :=
  can_sync_floors_remaining_minutes 270000000 5
    { sync_started_at := 0, status := "completed" } []
    (by norm_num [usPerMinute]) (by norm_num [usPerMinute])

/-! ## Members, submissions and the reconciliation diff
(`SyncService.sync_list_members`) -/

/-- One member dictionary from the remote fetch: the Twitter API returns
`id`, `username` and optionally `name`; the engine reads
`member.get('name', '')`, so `name` is optional here. -/
structure RemoteMember where
  id : String
  username : String
  name : Option String
deriving Repr, DecidableEq

/-- One row of the `list_members` table (`ListMember` in `app/models.py`).
Only the columns the engine reads or writes are modelled. -/
structure ListMember where
  twitter_user_id : String
  username : String
  name : Option String
  source : String
  submission_id : Option Nat
  added_at : Int
  synced_at : Int
deriving Repr, DecidableEq

/-- One row of the `submissions` table (`Submission` in `app/models.py`). -/
structure Submission where
  id : Nat
  email : String
  twitter_handle : String
  status : String
  twitter_user_id : Option String := none
  processed_at : Option Int := none
  notes : Option String := none
deriving Repr, DecidableEq

/-- The `name = twitter_member.get('name', '')` read in the sync loop. -/
def effName (m : RemoteMember) : String := m.name.getD ""

/-- The new `ListMember(...)` constructed by the add branch of the sync loop:
the first submission whose resolved user id matches decides the provenance
(`bulk_added` when its email is the bulk-import placeholder, else
`app_submitted`), and `pre_existing` when no submission references the id. -/
def newListMember (submissions : List Submission) (now : Int)
    (m : RemoteMember) : ListMember :=
  match submissions.find? (fun s => s.twitter_user_id == some m.id) with
  | some s =>
    { twitter_user_id := m.id, username := m.username, name := some (effName m),
      source := if s.email == "bulk-added@system" then SOURCE_BULK_ADDED
                else SOURCE_APP_SUBMITTED,
      submission_id := some s.id, added_at := now, synced_at := now }
  | none =>
    { twitter_user_id := m.id, username := m.username, name := some (effName m),
      source := SOURCE_PRE_EXISTING, submission_id := none,
      added_at := now, synced_at := now }

/-- Net effect of the update branch on the matched row: the loop assigns
`username` and `name` only when they differ (assigning an equal value is a
no-op, so the net effect is the same) and always refreshes `synced_at`. -/
def refreshMember (now : Int) (m : RemoteMember) (r : ListMember) : ListMember :=
  { r with username := m.username, name := some (effName m), synced_at := now }

/-- The `updated` flag computed by the update branch: true when the stored
`username` or `name` differs from the fetched one. -/
def fieldsChanged (m : RemoteMember) (r : ListMember) : Bool :=
  r.username != m.username || r.name != some (effName m)

/-- Loop state of the member-processing pass: the `db_members` dictionary
(whose key set never changes during the loop — the add branch does not insert
into it), the new rows added to the session, and the two counters. -/
structure DiffState where
  db_members : List ListMember
  new_members : List ListMember
  members_added : Nat
  members_updated : Nat
deriving Repr, DecidableEq

/-- Body of `for twitter_member in twitter_members` in `sync_list_members`:
a member present in `db_members` is refreshed in place (counted updated when a
field differed), an absent one is constructed and counted added. -/
def processMember (submissions : List Submission) (now : Int)
    (st : DiffState) (m : RemoteMember) : DiffState :=
  match st.db_members.find? (fun r => r.twitter_user_id == m.id) with
  | some r =>
    { st with
      db_members := st.db_members.map (fun q =>
        if q.twitter_user_id == m.id then refreshMember now m q else q),
      members_updated :=
        if fieldsChanged m r then st.members_updated + 1 else st.members_updated }
  | none =>
    { st with
      new_members := st.new_members ++ [newListMember submissions now m],
      members_added := st.members_added + 1 }

/-- The whole member-processing loop, starting from the `db_members` snapshot
taken by `ListMember.query.all()` and zeroed counters. -/
def runDiff (submissions : List Submission) (now : Int)
    (db : List ListMember) (remote : List RemoteMember) : DiffState :=
  remote.foldl (processMember submissions now)
    { db_members := db, new_members := [], members_added := 0, members_updated := 0 }

/-- The `twitter_user_ids` set built from the fetch result. -/
def remoteIds (remote : List RemoteMember) : List String := remote.map (·.id)

/-- The statistics assembled by one sync run. -/
structure SyncCounts where
  members_fetched : Nat
  members_added : Nat
  members_updated : Nat
  members_removed : Nat
deriving Repr, DecidableEq

/-- The database effect of `sync_list_members` after a successful fetch:
process every fetched member, then delete every db member whose user id is
absent from the remote id set.  Returns the counts and the resulting
`list_members` table. -/
def syncDiff (submissions : List Submission) (now : Int)
    (db : List ListMember) (remote : List RemoteMember) :
    SyncCounts × List ListMember :=
  let st := runDiff submissions now db remote
  let kept := st.db_members.filter
    (fun r => (remoteIds remote).contains r.twitter_user_id)
  let removed := st.db_members.filter
    (fun r => !(remoteIds remote).contains r.twitter_user_id)
  ({ members_fetched := remote.length, members_added := st.members_added,
     members_updated := st.members_updated, members_removed := removed.length },
   kept ++ st.new_members)

/-! ## The full sync entry point with its audit log (`sync_list_members`) -/

/-- Ordered trace of the observable steps of one `sync_list_members` call:
persisting the in-progress `SyncLog` row, issuing the remote fetch, and
finalizing the same row. -/
inductive SyncEvent where
  | logCreated (rec : SyncLogRec)
  | remoteFetch
  | logFinalized (rec : SyncLogRec)
deriving Repr, DecidableEq

/-- The result dictionary returned on success. -/
structure SyncResult where
  success : Bool
  members_fetched : Nat
  members_added : Nat
  members_updated : Nat
  members_removed : Nat
deriving Repr, DecidableEq

/-- The persistent state touched by a sync run: the `sync_logs` table (most
recent first, matching the descending query), the `list_members` table and the
`submissions` table. -/
structure SyncState where
  sync_logs : List SyncLogRec
  list_members : List ListMember
  submissions : List Submission
deriving Repr, DecidableEq

/-- `SyncService.sync_list_members` from `app/services/sync_service.py`.

The remote fetch is passed in as `fetchOutcome`: `.ok members` when
`get_list_members` returns, `.error e` when it raises.  The function
returns the raised-or-returned outcome, the new persistent state, and the
ordered event trace.  When the governor refuses, it raises before touching
the `sync_logs` table; otherwise an `in_progress` row is persisted before
the fetch and that same row is finalized (completed with counts, or failed
with the error message) before returning or re-raising. -/
def sync_list_members (st : SyncState)
    (fetchOutcome : Except String (List RemoteMember))
    (now : Int) (cooloffMinutes : Int) :
    Except String SyncResult × SyncState × List SyncEvent :=
  let gate := can_sync st.sync_logs now cooloffMinutes
  if !gate.1 then
    (.error gate.2, st, [])
  else
    let log0 : SyncLogRec := { sync_started_at := now, status := STATUS_IN_PROGRESS }
    match fetchOutcome with
    | .error e =>
      let logF := { log0 with
        status := STATUS_FAILED
        error_message := some e
        sync_completed_at := some now }
      (.error e,
       { st with sync_logs := logF :: st.sync_logs },
       [SyncEvent.logCreated log0, SyncEvent.remoteFetch,
        SyncEvent.logFinalized logF])
    | .ok twitter_members =>
      let out := syncDiff st.submissions now st.list_members twitter_members
      let logF := { log0 with
        members_fetched := out.1.members_fetched,
        members_added := out.1.members_added,
        members_updated := out.1.members_updated,
        members_removed := out.1.members_removed,
        sync_completed_at := some now, status := STATUS_COMPLETED }
      (.ok { success := true,
             members_fetched := out.1.members_fetched,
             members_added := out.1.members_added,
             members_updated := out.1.members_updated,
             members_removed := out.1.members_removed },
       { st with sync_logs := logF :: st.sync_logs, list_members := out.2 },
       [SyncEvent.logCreated log0, SyncEvent.remoteFetch,
        SyncEvent.logFinalized logF])

/-- Sanity check, end-to-end scenario A of the spec: empty local store and two
remote members give counts fetched 2, added 2, updated 0, removed 0, both with
provenance `pre_existing`. -/
example :
    syncDiff [] 7 [] [⟨"1", "a", some "A"⟩, ⟨"2", "b", none⟩] =
      ({ members_fetched := 2, members_added := 2, members_updated := 0,
         members_removed := 0 },
       [{ twitter_user_id := "1", username := "a", name := some "A",
          source := "pre_existing", submission_id := none,
          added_at := 7, synced_at := 7 },
        { twitter_user_id := "2", username := "b", name := some "",
          source := "pre_existing", submission_id := none,
          added_at := 7, synced_at := 7 }]) := by
  decide

/-- Sanity check, scenario B: a username change is counted updated and the
stored username is replaced. -/
example :
    syncDiff [] 9
      [{ twitter_user_id := "1", username := "alice", name := some "A",
         source := "pre_existing", submission_id := none,
         added_at := 0, synced_at := 0 }]
      [⟨"1", "alice2", some "A"⟩] =
      ({ members_fetched := 1, members_added := 0, members_updated := 1,
         members_removed := 0 },
       [{ twitter_user_id := "1", username := "alice2", name := some "A",
          source := "pre_existing", submission_id := none,
          added_at := 0, synced_at := 9 }]) := by
  decide

/-- Sanity check, scenario C: a member absent remotely is removed. -/
example :
    (syncDiff [] 9
      [{ twitter_user_id := "1", username := "a", name := some "A",
         source := "pre_existing", submission_id := none,
         added_at := 0, synced_at := 0 },
       { twitter_user_id := "2", username := "b", name := some "B",
         source := "pre_existing", submission_id := none,
         added_at := 0, synced_at := 0 }]
      [⟨"1", "a", some "A"⟩]).1 =
      { members_fetched := 1, members_added := 0, members_updated := 0,
        members_removed := 1 } := by
  decide

/-! ## Structural lemmas about the member-processing loop -/

/-- One loop step never changes the key set of the `db_members` dictionary:
the add branch does not insert into it, and the update branch keeps keys. -/
theorem processMember_ids (subs : List Submission) (now : Int)
    (st : DiffState) (m : RemoteMember) :
    (processMember subs now st m).db_members.map (·.twitter_user_id)
      = st.db_members.map (·.twitter_user_id) := by
  unfold processMember
  split
  · simp only [List.map_map]
    refine List.map_congr_left (fun q _ => ?_)
    simp only [Function.comp_apply]
    split <;> rfl
  · rfl

/-- The whole loop never changes the key set of `db_members`. -/
theorem foldl_processMember_ids (subs : List Submission) (now : Int) :
    ∀ (R : List RemoteMember) (st : DiffState),
    ((R.foldl (processMember subs now) st).db_members).map (·.twitter_user_id)
      = st.db_members.map (·.twitter_user_id)
  | [], _ => rfl
  | m :: R, st => by
    rw [List.foldl_cons, foldl_processMember_ids subs now R, processMember_ids]

/-- Membership tests on a member list depend only on its key set. -/
theorem any_id_eq_ids (L : List ListMember) (x : String) :
    L.any (fun r => r.twitter_user_id == x)
      = (L.map (·.twitter_user_id)).any (fun t => t == x) := by
  induction L with
  | nil => rfl
  | cons q L ih => simp [List.any_cons, ih]

/-- A loop step leaves every membership test unchanged. -/
theorem processMember_any (subs : List Submission) (now : Int)
    (st : DiffState) (m : RemoteMember) (x : String) :
    (processMember subs now st m).db_members.any (fun r => r.twitter_user_id == x)
      = st.db_members.any (fun r => r.twitter_user_id == x) := by
  rw [any_id_eq_ids, any_id_eq_ids, processMember_ids]

/-- `members_added` counts exactly the fetched members whose user id has no
record in the initial `db_members` snapshot. -/
theorem foldl_processMember_added (subs : List Submission) (now : Int) :
    ∀ (R : List RemoteMember) (st : DiffState),
    (R.foldl (processMember subs now) st).members_added
      = st.members_added
        + R.countP (fun m => !st.db_members.any (fun r => r.twitter_user_id == m.id))
  | [], st => by simp
  | m :: R, st => by
    rw [List.foldl_cons, foldl_processMember_added subs now R, List.countP_cons]
    have hcount : R.countP (fun mm => !(processMember subs now st m).db_members.any
          (fun r => r.twitter_user_id == mm.id))
        = R.countP (fun mm => !st.db_members.any (fun r => r.twitter_user_id == mm.id)) := by
      refine List.countP_congr (fun a _ => ?_)
      rw [processMember_any]
    rw [hcount]
    have hstep : (processMember subs now st m).members_added
        = st.members_added
          + (if !st.db_members.any (fun r => r.twitter_user_id == m.id) then 1 else 0) := by
      unfold processMember
      cases h : st.db_members.find? (fun r => r.twitter_user_id == m.id) with
      | none =>
        have hany : st.db_members.any (fun r => r.twitter_user_id == m.id) = false := by
          rw [List.any_eq_false]
          intro r hr
          have := List.find?_eq_none.mp h r hr
          simpa using this
        simp [hany]
      | some r =>
        have hp : (r.twitter_user_id == m.id) = true := by
          have hfs := List.find?_some h
          simpa using hfs
        have hany : st.db_members.any (fun r => r.twitter_user_id == m.id) = true := by
          rw [List.any_eq_true]
          exact ⟨r, List.mem_of_find?_eq_some h, hp⟩
        simp [hany]
    rw [hstep]
    omega

/-- `new_members` collects, in fetch order, exactly the constructed rows for
the fetched members absent from the initial `db_members` snapshot. -/
theorem foldl_processMember_new (subs : List Submission) (now : Int) :
    ∀ (R : List RemoteMember) (st : DiffState),
    (R.foldl (processMember subs now) st).new_members
      = st.new_members
        ++ (R.filter (fun m => !st.db_members.any (fun r => r.twitter_user_id == m.id))).map
            (newListMember subs now)
  | [], st => by simp
  | m :: R, st => by
    rw [List.foldl_cons, foldl_processMember_new subs now R]
    have hfil : R.filter (fun mm => !(processMember subs now st m).db_members.any
          (fun r => r.twitter_user_id == mm.id))
        = R.filter (fun mm => !st.db_members.any (fun r => r.twitter_user_id == mm.id)) := by
      refine List.filter_congr (fun a _ => ?_)
      rw [processMember_any]
    rw [hfil, List.filter_cons]
    have hstep : (processMember subs now st m).new_members
        = st.new_members
          ++ (if !st.db_members.any (fun r => r.twitter_user_id == m.id)
              then [newListMember subs now m] else []) := by
      unfold processMember
      cases h : st.db_members.find? (fun r => r.twitter_user_id == m.id) with
      | none =>
        have hany : st.db_members.any (fun r => r.twitter_user_id == m.id) = false := by
          rw [List.any_eq_false]
          intro r hr
          have := List.find?_eq_none.mp h r hr
          simpa using this
        simp [hany]
      | some r =>
        have hp : (r.twitter_user_id == m.id) = true := by
          have hfs := List.find?_some h
          simpa using hfs
        have hany : st.db_members.any (fun r => r.twitter_user_id == m.id) = true := by
          rw [List.any_eq_true]
          exact ⟨r, List.mem_of_find?_eq_some h, hp⟩
        simp [hany]
    rw [hstep]
    by_cases hm : st.db_members.any (fun r => r.twitter_user_id == m.id) <;>
      simp [hm, List.append_assoc]

/-- Specialized head-matching rule for the member lookups below. -/
theorem find?_tuid_cons_pos (y : String) (r : ListMember) (l : List ListMember)
    (h : (r.twitter_user_id == y) = true) :
    (r :: l).find? (fun q => q.twitter_user_id == y) = some r := by
  simp [List.find?_cons, h]

/-- Specialized head-skipping rule for the member lookups below. -/
theorem find?_tuid_cons_neg (y : String) (r : ListMember) (l : List ListMember)
    (h : (r.twitter_user_id == y) = false) :
    (r :: l).find? (fun q => q.twitter_user_id == y)
      = l.find? (fun q => q.twitter_user_id == y) := by
  simp [List.find?_cons, h]

/-- Refreshing the rows keyed by one user id leaves lookups for any other id
unchanged. -/
theorem find?_map_update (l : List ListMember) (a y : String) (hya : y ≠ a)
    (f : ListMember → ListMember)
    (hf : ∀ q, (f q).twitter_user_id = q.twitter_user_id) :
    (l.map (fun q => if q.twitter_user_id == a then f q else q)).find?
        (fun r => r.twitter_user_id == y)
      = l.find? (fun r => r.twitter_user_id == y) := by
  induction l with
  | nil => rfl
  | cons q l ih =>
    rw [List.map_cons]
    have htuid : (if q.twitter_user_id == a then f q else q).twitter_user_id
        = q.twitter_user_id := by
      split
      · exact hf q
      · rfl
    by_cases hq : q.twitter_user_id = y
    · have hqa : (q.twitter_user_id == a) = false := by
        rw [beq_eq_false_iff_ne, hq]
        exact hya
      have hqeq : (if q.twitter_user_id == a then f q else q) = q := by
        simp [hqa]
      have hpos : (q.twitter_user_id == y) = true := by simp [hq]
      rw [hqeq, find?_tuid_cons_pos y q _ hpos, find?_tuid_cons_pos y q l hpos]
    · have hq2 : (q.twitter_user_id == y) = false := by
        rw [beq_eq_false_iff_ne]
        exact hq
      rw [find?_tuid_cons_neg y _ _ (by rw [htuid]; exact hq2),
        find?_tuid_cons_neg y q l hq2]
      exact ih

/-- With pairwise distinct fetched ids, the loop rewrites each db row
according to the unique fetched member carrying its id, if any. -/
theorem foldl_processMember_db (subs : List Submission) (now : Int) :
    ∀ (R : List RemoteMember) (st : DiffState), (R.map (·.id)).Nodup →
    (R.foldl (processMember subs now) st).db_members
      = st.db_members.map (fun r =>
          match R.find? (fun mm => mm.id == r.twitter_user_id) with
          | some mm => refreshMember now mm r
          | none => r)
  | [], st, _ => by simp [List.find?]
  | m :: R, st, h => by
    simp only [List.map_cons, List.nodup_cons] at h
    obtain ⟨hm, hR⟩ := h
    rw [List.foldl_cons, foldl_processMember_db subs now R _ hR]
    unfold processMember
    cases hf : st.db_members.find? (fun r => r.twitter_user_id == m.id) with
    | some r0 =>
      simp only [List.map_map]
      refine List.map_congr_left (fun q hq => ?_)
      simp only [Function.comp_apply]
      by_cases hq1 : q.twitter_user_id = m.id
      · have hnone : R.find? (fun mm => mm.id == m.id) = none := by
          rw [List.find?_eq_none]
          intro mm hmm
          simp only [beq_iff_eq]
          intro hcontra
          exact hm (hcontra ▸ List.mem_map_of_mem (·.id) hmm)
        have hhead : (m.id == q.twitter_user_id) = true := by
          simp [hq1]
        simp [List.find?_cons, hhead, hq1, refreshMember, hnone]
      · have hhead : (m.id == q.twitter_user_id) = false := by
          simp only [beq_eq_false_iff_ne, ne_eq]
          exact fun hcontra => hq1 hcontra.symm
        have hqm : (q.twitter_user_id == m.id) = false := by
          simp only [beq_eq_false_iff_ne, ne_eq]
          exact hq1
        simp [List.find?_cons, hhead, hqm]
    | none =>
      refine List.map_congr_left (fun q hq => ?_)
      have hqm := List.find?_eq_none.mp hf q hq
      have hhead : (m.id == q.twitter_user_id) = false := by
        simp only [beq_eq_false_iff_ne, ne_eq]
        intro hcontra
        exact hqm (by simp [hcontra])
      simp [List.find?_cons, hhead]

/-- With pairwise distinct fetched ids, `members_updated` counts exactly the
fetched members whose matching db row differed in username or name. -/
theorem foldl_processMember_updated (subs : List Submission) (now : Int) :
    ∀ (R : List RemoteMember) (st : DiffState), (R.map (·.id)).Nodup →
    (R.foldl (processMember subs now) st).members_updated
      = st.members_updated
        + R.countP (fun m =>
            match st.db_members.find? (fun r => r.twitter_user_id == m.id) with
            | some r => fieldsChanged m r
            | none => false)
  | [], st, _ => rfl
  | m :: R, st, h => by
    simp only [List.map_cons, List.nodup_cons] at h
    obtain ⟨hm, hR⟩ := h
    rw [List.foldl_cons, foldl_processMember_updated subs now R _ hR, List.countP_cons]
    have htrans : ∀ mm ∈ R,
        (processMember subs now st m).db_members.find?
            (fun r => r.twitter_user_id == mm.id)
          = st.db_members.find? (fun r => r.twitter_user_id == mm.id) := by
      intro mm hmm
      unfold processMember
      cases hf : st.db_members.find? (fun r => r.twitter_user_id == m.id) with
      | none => rfl
      | some r0 =>
        have hy : mm.id ≠ m.id := by
          intro hcontra
          exact hm (hcontra ▸ List.mem_map_of_mem (·.id) hmm)
        exact find?_map_update _ _ _ hy _ (fun q => rfl)
    have hcount : R.countP (fun mm =>
          match (processMember subs now st m).db_members.find?
              (fun r => r.twitter_user_id == mm.id) with
          | some r => fieldsChanged mm r
          | none => false)
        = R.countP (fun mm =>
          match st.db_members.find? (fun r => r.twitter_user_id == mm.id) with
          | some r => fieldsChanged mm r
          | none => false) := by
      refine List.countP_congr (fun a ha => ?_)
      rw [htrans a ha]
    rw [hcount]
    have hstep : (processMember subs now st m).members_updated
        = st.members_updated
          + (match st.db_members.find? (fun r => r.twitter_user_id == m.id) with
             | some r => if fieldsChanged m r then 1 else 0
             | none => 0) := by
      unfold processMember
      cases hf : st.db_members.find? (fun r => r.twitter_user_id == m.id) with
      | none => rfl
      | some r0 =>
        simp only
        split <;> rfl
    rw [hstep]
    cases hf : st.db_members.find? (fun r => r.twitter_user_id == m.id) with
    | none => simp
    | some r0 =>
      by_cases hc : fieldsChanged m r0
      · simp only [hc, if_true]
        omega
      · simp only [hc, Bool.false_eq_true, if_false]
        omega

/-! ## Classification of fetched members against the local snapshot -/

/-- A fetched member with no local record (classified added by the loop). -/
def absentLocally (db : List ListMember) (m : RemoteMember) : Bool :=
  !db.any (fun r => r.twitter_user_id == m.id)

/-- A fetched member whose matching local record differs in username or name
(classified updated). -/
def presentDiffers (db : List ListMember) (m : RemoteMember) : Bool :=
  match db.find? (fun r => r.twitter_user_id == m.id) with
  | some r => fieldsChanged m r
  | none => false

/-- A fetched member whose matching local record is unchanged. -/
def presentUnchanged (db : List ListMember) (m : RemoteMember) : Bool :=
  match db.find? (fun r => r.twitter_user_id == m.id) with
  | some r => !fieldsChanged m r
  | none => false

/-- Membership tests and lookups agree. -/
theorem any_tuid_eq_find?_isSome (db : List ListMember) (x : String) :
    db.any (fun r => r.twitter_user_id == x)
      = (db.find? (fun r => r.twitter_user_id == x)).isSome := by
  cases hf : db.find? (fun r => r.twitter_user_id == x) with
  | none =>
    have hfalse : db.any (fun r => r.twitter_user_id == x) = false := by
      rw [List.any_eq_false]
      intro r hr
      have := List.find?_eq_none.mp hf r hr
      simpa using this
    rw [hfalse]
    rfl
  | some r =>
    have hp : (r.twitter_user_id == x) = true := by
      have hfs := List.find?_some hf
      simpa using hfs
    rw [List.any_eq_true.mpr ⟨r, List.mem_of_find?_eq_some hf, hp⟩]
    rfl

/-- Every fetched member falls in exactly one class, so the three counts
partition the fetch. -/
theorem countP_classification (db : List ListMember) (R : List RemoteMember) :
    R.countP (absentLocally db) + R.countP (presentDiffers db)
      + R.countP (presentUnchanged db) = R.length := by
  induction R with
  | nil => rfl
  | cons m R ih =>
    simp only [List.countP_cons, List.length_cons]
    have habs : absentLocally db m
        = !(db.find? (fun r => r.twitter_user_id == m.id)).isSome := by
      rw [absentLocally, any_tuid_eq_find?_isSome]
    cases hf : db.find? (fun r => r.twitter_user_id == m.id) with
    | none =>
      rw [hf] at habs
      have habs2 : absentLocally db m = true := habs
      simp only [presentDiffers, presentUnchanged, hf, habs2]
      simp only [if_true, Bool.false_eq_true, if_false]
      omega
    | some r =>
      rw [hf] at habs
      have habs2 : absentLocally db m = false := habs
      cases hc : fieldsChanged m r with
      | true =>
        simp only [presentDiffers, presentUnchanged, hf, habs2, hc, Bool.not_true]
        simp only [Bool.false_eq_true, if_false, if_true]
        omega
      | false =>
        simp only [presentDiffers, presentUnchanged, hf, habs2, hc, Bool.not_false]
        simp only [Bool.false_eq_true, if_false, if_true]
        omega

/-- Counting rows missing from an id list only depends on their user ids. -/
theorem countP_not_contains_eq (L : List ListMember) (other : List String) :
    L.countP (fun r => !other.contains r.twitter_user_id)
      = (L.map (·.twitter_user_id)).countP (fun t => !other.contains t) := by
  induction L with
  | nil => rfl
  | cons q L ih =>
    rw [List.map_cons, List.countP_cons, List.countP_cons, ih]

/-- Counting ids missing from another list is the cardinality of the set
difference, for a duplicate-free id list. -/
theorem countP_not_mem_eq_card_sdiff (ids other : List String) (h : ids.Nodup) :
    ids.countP (fun t => !other.contains t)
      = (ids.toFinset \ other.toFinset).card := by
  rw [List.countP_eq_length_filter]
  have hnd : (ids.filter (fun t => !other.contains t)).Nodup := h.filter _
  rw [← List.toFinset_card_of_nodup hnd]
  congr 1
  ext x
  constructor
  · intro hxf
    have hmf := List.mem_filter.mp (List.mem_toFinset.mp hxf)
    refine Finset.mem_sdiff.mpr ⟨List.mem_toFinset.mpr hmf.1, fun hin => ?_⟩
    have hcx : other.contains x = true := List.elem_iff.mpr (List.mem_toFinset.mp hin)
    have hbad := hmf.2
    rw [hcx] at hbad
    exact absurd hbad (by simp)
  · intro hxs
    rcases Finset.mem_sdiff.mp hxs with ⟨hin, hnin⟩
    refine List.mem_toFinset.mpr (List.mem_filter.mpr ⟨List.mem_toFinset.mp hin, ?_⟩)
    cases hcx : other.contains x with
    | false => rfl
    | true =>
      exact absurd (List.elem_iff.mp hcx) fun hmm => hnin (List.mem_toFinset.mpr hmm)

/-- In a table with duplicate-free user ids, looking a row up by its own id
finds exactly that row. -/
theorem find?_eq_of_nodup_mem (db : List ListMember)
    (hdb : (db.map (·.twitter_user_id)).Nodup) (r : ListMember) (hr : r ∈ db) :
    db.find? (fun q => q.twitter_user_id == r.twitter_user_id) = some r := by
  induction db with
  | nil => cases hr
  | cons q db ih =>
    simp only [List.map_cons, List.nodup_cons] at hdb
    rcases List.mem_cons.mp hr with hqr | hr2
    · subst hqr
      exact find?_tuid_cons_pos _ _ _ (by simp)
    · have hne : (q.twitter_user_id == r.twitter_user_id) = false := by
        rw [beq_eq_false_iff_ne]
        intro hcontra
        exact hdb.1 (hcontra ▸ List.mem_map_of_mem (·.twitter_user_id) hr2)
      rw [find?_tuid_cons_neg _ _ _ hne]
      exact ih hdb.2 hr2

/-- Specialized head-matching rule for fetched-member lookups. -/
theorem remote_find?_cons_pos (y : String) (q : RemoteMember) (l : List RemoteMember)
    (h : (q.id == y) = true) :
    (q :: l).find? (fun mm => mm.id == y) = some q := by
  simp [List.find?_cons, h]

/-- Specialized head-skipping rule for fetched-member lookups. -/
theorem remote_find?_cons_neg (y : String) (q : RemoteMember) (l : List RemoteMember)
    (h : (q.id == y) = false) :
    (q :: l).find? (fun mm => mm.id == y) = l.find? (fun mm => mm.id == y) := by
  simp [List.find?_cons, h]

/-- In a fetch with duplicate-free ids, looking a member up by its own id
finds exactly that member. -/
theorem remote_find?_eq_of_nodup_mem (R : List RemoteMember)
    (hrem : (R.map (·.id)).Nodup) (m : RemoteMember) (hm : m ∈ R) :
    R.find? (fun mm => mm.id == m.id) = some m := by
  induction R with
  | nil => cases hm
  | cons q R ih =>
    simp only [List.map_cons, List.nodup_cons] at hrem
    rcases List.mem_cons.mp hm with hqm | hm2
    · subst hqm
      exact remote_find?_cons_pos _ _ _ (by simp)
    · have hne : (q.id == m.id) = false := by
        rw [beq_eq_false_iff_ne]
        intro hcontra
        exact hrem.1 (hcontra ▸ List.mem_map_of_mem (·.id) hm2)
      rw [remote_find?_cons_neg _ _ _ hne]
      exact ih hrem.2 hm2

/-- The constructed row carries the fetched user id, whatever the provenance
lookup returned. -/
theorem newListMember_tuid (subs : List Submission) (now : Int) (m : RemoteMember) :
    (newListMember subs now m).twitter_user_id = m.id := by
  unfold newListMember
  split <;> rfl

/-- Unchanged means: equal username and equal (defaulted) name. -/
theorem fieldsChanged_false_iff (m : RemoteMember) (r : ListMember) :
    fieldsChanged m r = false ↔ (r.username = m.username ∧ r.name = some (effName m)) := by
  simp [fieldsChanged]

/-- Unfolding of `syncDiff` into its loop outputs. -/
theorem syncDiff_eq (subs : List Submission) (now : Int)
    (db : List ListMember) (remote : List RemoteMember) :
    syncDiff subs now db remote =
      ({ members_fetched := remote.length,
         members_added := (runDiff subs now db remote).members_added,
         members_updated := (runDiff subs now db remote).members_updated,
         members_removed := ((runDiff subs now db remote).db_members.filter
           (fun r => !(remoteIds remote).contains r.twitter_user_id)).length },
       (runDiff subs now db remote).db_members.filter
           (fun r => (remoteIds remote).contains r.twitter_user_id)
         ++ (runDiff subs now db remote).new_members) := rfl

/-- The loop counters and outputs, expressed against the initial snapshot. -/
theorem runDiff_added (subs : List Submission) (now : Int)
    (db : List ListMember) (remote : List RemoteMember) :
    (runDiff subs now db remote).members_added
      = remote.countP (absentLocally db) := by
  unfold runDiff
  rw [foldl_processMember_added]
  simp only [Nat.zero_add]
  refine List.countP_congr (fun a _ => ?_)
  rfl

/-- The loop keeps the key set of the table. -/
theorem runDiff_ids (subs : List Submission) (now : Int)
    (db : List ListMember) (remote : List RemoteMember) :
    (runDiff subs now db remote).db_members.map (·.twitter_user_id)
      = db.map (·.twitter_user_id) := by
  unfold runDiff
  exact foldl_processMember_ids subs now remote _

/-- The final rows of the table, for a duplicate-free fetch. -/
theorem runDiff_db (subs : List Submission) (now : Int)
    (db : List ListMember) (remote : List RemoteMember)
    (hrem : (remote.map (·.id)).Nodup) :
    (runDiff subs now db remote).db_members
      = db.map (fun r =>
          match remote.find? (fun mm => mm.id == r.twitter_user_id) with
          | some mm => refreshMember now mm r
          | none => r) := by
  unfold runDiff
  exact foldl_processMember_db subs now remote _ hrem

/-- The rows constructed by the loop, in fetch order. -/
theorem runDiff_new (subs : List Submission) (now : Int)
    (db : List ListMember) (remote : List RemoteMember) :
    (runDiff subs now db remote).new_members
      = (remote.filter (absentLocally db)).map (newListMember subs now) := by
  unfold runDiff
  rw [foldl_processMember_new]
  simp only [List.nil_append]
  congr 1

/-- The updated counter, against the initial snapshot. -/
theorem runDiff_updated (subs : List Submission) (now : Int)
    (db : List ListMember) (remote : List RemoteMember)
    (hrem : (remote.map (·.id)).Nodup) :
    (runDiff subs now db remote).members_updated
      = remote.countP (presentDiffers db) := by
  unfold runDiff
  rw [foldl_processMember_updated subs now remote _ hrem]
  simp only [Nat.zero_add]
  refine List.countP_congr (fun a _ => ?_)
  rfl

/-- C1: the reconciliation diff classifies each fetched member with no local
record as added, each local record absent remotely as removed, and a locally
present member as updated exactly when its username or name differs; an
unchanged member is kept with only its last-synced timestamp refreshed and is
not counted as updated, and the counts satisfy
added + updated + unchanged = fetched and removed = |local \ remote|. -/
theorem sync_diff_classification (subs : List Submission) (now : Int)
    (db : List ListMember) (remote : List RemoteMember)
    (hdb : (db.map (·.twitter_user_id)).Nodup)
    (hrem : (remote.map (·.id)).Nodup) :
    (syncDiff subs now db remote).1.members_added = remote.countP (absentLocally db)
    ∧ (∀ m ∈ remote, absentLocally db m = true →
        newListMember subs now m ∈ (syncDiff subs now db remote).2)
    ∧ (syncDiff subs now db remote).1.members_updated
        = remote.countP (presentDiffers db)
    ∧ (∀ m ∈ remote, ∀ r ∈ db, r.twitter_user_id = m.id → fieldsChanged m r = false →
        ({ r with synced_at := now } : ListMember) ∈ (syncDiff subs now db remote).2
          ∧ presentDiffers db m = false)
    ∧ (syncDiff subs now db remote).1.members_added
        + (syncDiff subs now db remote).1.members_updated
        + remote.countP (presentUnchanged db)
        = (syncDiff subs now db remote).1.members_fetched
    ∧ (syncDiff subs now db remote).1.members_removed
        = ((db.map (·.twitter_user_id)).toFinset \ (remote.map (·.id)).toFinset).card
    ∧ (∀ r ∈ db, r.twitter_user_id ∉ remote.map (·.id) →
        ∀ r2 ∈ (syncDiff subs now db remote).2,
          r2.twitter_user_id ≠ r.twitter_user_id) := by
  simp only [syncDiff_eq]
  refine ⟨?_, ?_, ?_, ?_, ?_, ?_, ?_⟩
  · exact runDiff_added subs now db remote
  · intro m hm habs
    refine List.mem_append.mpr (Or.inr ?_)
    rw [runDiff_new]
    exact List.mem_map_of_mem _ (List.mem_filter.mpr ⟨hm, habs⟩)
  · exact runDiff_updated subs now db remote hrem
  · intro m hm r hrdb hrid hcf
    have hfind : db.find? (fun q => q.twitter_user_id == m.id) = some r := by
      rw [← hrid]
      exact find?_eq_of_nodup_mem db hdb r hrdb
    have hrfind : remote.find? (fun mm => mm.id == r.twitter_user_id) = some m := by
      rw [hrid]
      exact remote_find?_eq_of_nodup_mem remote hrem m hm
    constructor
    · refine List.mem_append.mpr (Or.inl ?_)
      rw [runDiff_db subs now db remote hrem]
      refine List.mem_filter.mpr ⟨?_, ?_⟩
      · refine List.mem_map.mpr ⟨r, hrdb, ?_⟩
        show (match remote.find? (fun mm => mm.id == r.twitter_user_id) with
          | some mm => refreshMember now mm r
          | none => r) = ({ r with synced_at := now } : ListMember)
        rw [hrfind]
        obtain ⟨hu, hn⟩ := (fieldsChanged_false_iff m r).mp hcf
        simp only [refreshMember]
        rw [← hu, ← hn]
      · show (remoteIds remote).contains r.twitter_user_id = true
        have hidmem : r.twitter_user_id ∈ remoteIds remote := by
          rw [hrid]
          exact List.mem_map_of_mem (·.id) hm
        exact List.elem_iff.mpr hidmem
    · simp only [presentDiffers, hfind, hcf]
  · rw [runDiff_added, runDiff_updated subs now db remote hrem]
    exact countP_classification db remote
  · rw [← List.countP_eq_length_filter]
    rw [countP_not_contains_eq, runDiff_ids, countP_not_mem_eq_card_sdiff _ _ hdb]
    rfl
  · intro r hrdb hnotin r2 hr2
    rcases List.mem_append.mp hr2 with hkept | hnew
    · have hmf := List.mem_filter.mp hkept
      intro heq
      have : r2.twitter_user_id ∈ remoteIds remote := List.elem_iff.mp hmf.2
      rw [heq] at this
      exact hnotin this
    · rw [runDiff_new] at hnew
      obtain ⟨mm, hmm, hval⟩ := List.mem_map.mp hnew
      intro heq
      rw [← hval, newListMember_tuid] at heq
      have : mm.id ∈ remote.map (·.id) :=
        List.mem_map_of_mem (·.id) (List.mem_filter.mp hmm).1
      rw [heq] at this
      exact hnotin this

/-- Witness for `sync_diff_classification` at the scenario-A instance: empty
local store, two fetched members, one with a matching submission. -/
theorem sync_diff_classification_witness :
    (syncDiff [] 7 [] [⟨"1", "a", some "A"⟩, ⟨"2", "b", none⟩]).1.members_added
      = List.countP (absentLocally [])
          [⟨"1", "a", some "A"⟩, ⟨"2", "b", none⟩] :=
  (sync_diff_classification [] 7 [] [⟨"1", "a", some "A"⟩, ⟨"2", "b", none⟩]
    (by decide) (by decide)).1

/-- C8: a row created for a remote user id with no local record takes its
provenance from the first submission whose resolved user id matches:
`bulk_added` when that submission carries the bulk-import placeholder email,
`app_submitted` for any other submission, and `pre_existing` when no
submission references the id; when a submission exists, the back-reference
is set to it. -/
theorem sync_new_member_provenance (subs : List Submission) (now : Int)
    (db : List ListMember) (remote : List RemoteMember) (m : RemoteMember)
    (hm : m ∈ remote)
    (habsent : db.any (fun r => r.twitter_user_id == m.id) = false) :
    newListMember subs now m ∈ (syncDiff subs now db remote).2
    ∧ (newListMember subs now m).twitter_user_id = m.id
    ∧ (∀ s : Submission,
        subs.find? (fun s2 => s2.twitter_user_id == some m.id) = some s →
        (newListMember subs now m).submission_id = some s.id
        ∧ (newListMember subs now m).source
            = (if s.email = "bulk-added@system" then SOURCE_BULK_ADDED
               else SOURCE_APP_SUBMITTED))
    ∧ (subs.find? (fun s2 => s2.twitter_user_id == some m.id) = none →
        (newListMember subs now m).source = SOURCE_PRE_EXISTING
        ∧ (newListMember subs now m).submission_id = none) := by
  refine ⟨?_, newListMember_tuid subs now m, ?_, ?_⟩
  · rw [syncDiff_eq]
    refine List.mem_append.mpr (Or.inr ?_)
    rw [runDiff_new]
    refine List.mem_map_of_mem _ (List.mem_filter.mpr ⟨hm, ?_⟩)
    show absentLocally db m = true
    rw [absentLocally, habsent]
    rfl
  · intro s hs
    unfold newListMember
    rw [hs]
    refine ⟨rfl, ?_⟩
    by_cases he : s.email = "bulk-added@system"
    · simp [he]
    · simp [he]
  · intro hnone
    unfold newListMember
    rw [hnone]
    exact ⟨rfl, rfl⟩

/-- Concrete bulk-import submission used by the provenance witness. -/
def bulkSub : Submission where
  id := 3
  email := "bulk-added@system"
  twitter_handle := "x"
  status := "approved"
  twitter_user_id := some "9"

/-- Witness for `sync_new_member_provenance`: an empty local store, one
fetched member whose id is resolved by a bulk-import submission; the created
row is bulk_added and lands in the final table. -/
theorem sync_new_member_provenance_witness :
    (newListMember [bulkSub] 7 ⟨"9", "x", some "X"⟩).source = SOURCE_BULK_ADDED
    ∧ newListMember [bulkSub] 7 ⟨"9", "x", some "X"⟩
        ∈ (syncDiff [bulkSub] 7 [] [⟨"9", "x", some "X"⟩]).2 := by
  have h := sync_new_member_provenance [bulkSub] 7 []
      [⟨"9", "x", some "X"⟩] ⟨"9", "x", some "X"⟩ (by decide) (by decide)
  refine ⟨?_, h.1⟩
  have h3 := h.2.2.1 bulkSub (by decide)
  rw [h3.2]
  decide

/-- C3: when the governor check passes, one SyncRun record is persisted with
status in_progress before the remote fetch event, and that same record (same
start time) is finalized — completed with the counts, or failed with the
error message — with a completion timestamp, before the call returns or
raises. -/
theorem sync_run_audit (st : SyncState)
    (fetchOutcome : Except String (List RemoteMember)) (now cm : Int)
    (hgate : (can_sync st.sync_logs now cm).1 = true) :
    ∃ logF : SyncLogRec,
      (sync_list_members st fetchOutcome now cm).2.1.sync_logs = logF :: st.sync_logs
      ∧ (sync_list_members st fetchOutcome now cm).2.2
          = [SyncEvent.logCreated { sync_started_at := now, status := STATUS_IN_PROGRESS },
             SyncEvent.remoteFetch, SyncEvent.logFinalized logF]
      ∧ logF.sync_started_at = now
      ∧ logF.sync_completed_at = some now
      ∧ (∀ e, fetchOutcome = .error e →
          logF.status = STATUS_FAILED ∧ logF.error_message = some e
          ∧ (sync_list_members st fetchOutcome now cm).1 = .error e)
      ∧ (∀ ms, fetchOutcome = .ok ms →
          logF.status = STATUS_COMPLETED ∧ logF.error_message = none
          ∧ logF.members_fetched = ms.length
          ∧ logF.members_added
              = (syncDiff st.submissions now st.list_members ms).1.members_added
          ∧ logF.members_updated
              = (syncDiff st.submissions now st.list_members ms).1.members_updated
          ∧ logF.members_removed
              = (syncDiff st.submissions now st.list_members ms).1.members_removed
          ∧ (sync_list_members st fetchOutcome now cm).1
              = .ok { success := true,
                      members_fetched
                        := (syncDiff st.submissions now st.list_members ms).1.members_fetched,
                      members_added
                        := (syncDiff st.submissions now st.list_members ms).1.members_added,
                      members_updated
                        := (syncDiff st.submissions now st.list_members ms).1.members_updated,
                      members_removed
                        := (syncDiff st.submissions now st.list_members ms).1.members_removed }) := by
  cases fetchOutcome with
  | error e =>
    simp only [sync_list_members, hgate, Bool.not_true, Bool.false_eq_true, if_false]
    refine ⟨_, rfl, rfl, rfl, rfl, fun e2 he2 => ?_, fun ms hms => ?_⟩
    · cases he2
      exact ⟨rfl, rfl, rfl⟩
    · cases hms
  | ok ms0 =>
    simp only [sync_list_members, hgate, Bool.not_true, Bool.false_eq_true, if_false]
    refine ⟨_, rfl, rfl, rfl, rfl, fun e2 he2 => ?_, fun ms hms => ?_⟩
    · cases he2
    · cases hms
      refine ⟨rfl, rfl, ?_, rfl, rfl, rfl, rfl⟩
      rfl

/-- Witness for `sync_run_audit`: no previous runs (so the governor passes)
and a successful empty fetch. -/
theorem sync_run_audit_witness :
    ∃ logF : SyncLogRec,
      (sync_list_members { sync_logs := [], list_members := [], submissions := [] }
          (Except.ok []) 5 5).2.1.sync_logs = logF :: []
      ∧ (sync_list_members { sync_logs := [], list_members := [], submissions := [] }
          (Except.ok []) 5 5).2.2
          = [SyncEvent.logCreated { sync_started_at := 5, status := STATUS_IN_PROGRESS },
             SyncEvent.remoteFetch, SyncEvent.logFinalized logF]
      ∧ logF.sync_started_at = 5
      ∧ logF.sync_completed_at = some 5
      ∧ (∀ e, (Except.ok [] : Except String (List RemoteMember)) = .error e →
          logF.status = STATUS_FAILED ∧ logF.error_message = some e
          ∧ (sync_list_members { sync_logs := [], list_members := [], submissions := [] }
              (Except.ok []) 5 5).1 = .error e)
      ∧ (∀ ms, (Except.ok [] : Except String (List RemoteMember)) = .ok ms →
          logF.status = STATUS_COMPLETED ∧ logF.error_message = none
          ∧ logF.members_fetched = ms.length
          ∧ logF.members_added = (syncDiff [] 5 [] ms).1.members_added
          ∧ logF.members_updated = (syncDiff [] 5 [] ms).1.members_updated
          ∧ logF.members_removed = (syncDiff [] 5 [] ms).1.members_removed
          ∧ (sync_list_members { sync_logs := [], list_members := [], submissions := [] }
              (Except.ok []) 5 5).1
              = .ok { success := true,
                      members_fetched := (syncDiff [] 5 [] ms).1.members_fetched,
                      members_added := (syncDiff [] 5 [] ms).1.members_added,
                      members_updated := (syncDiff [] 5 [] ms).1.members_updated,
                      members_removed := (syncDiff [] 5 [] ms).1.members_removed }) :=
  sync_run_audit { sync_logs := [], list_members := [], submissions := [] }
    (Except.ok []) 5 5 (by decide)

/-! ## The remote list client (`app/services/twitter_service.py`) -/

/-- A parsed HTTP response as the client reads it: the status code, the error
messages in the JSON `errors` array, and the `x-rate-limit-reset` header. -/
structure HttpResp where
  status : Nat
  errorMessages : List String := []
  rateLimitReset : Option Nat := none
deriving Repr, DecidableEq

/-- Outcome of one HTTP exchange: a response, or a requests-level network
error (`requests.exceptions.RequestException`). -/
inductive HttpOutcome where
  | resp (r : HttpResp)
  | netError (e : String)
deriving Repr, DecidableEq

/-- Whether the first character list is a prefix of the second. -/
def prefixOfList : List Char → List Char → Bool
  | [], _ => true
  | _ :: _, [] => false
  | c :: cs, d :: ds => c == d && prefixOfList cs ds

/-- Whether `needle` occurs as a contiguous run inside the second list. -/
def containsSub (needle : List Char) : List Char → Bool
  | [] => needle.isEmpty
  | d :: ds => prefixOfList needle (d :: ds) || containsSub needle ds

/-- Python's `needle in hay` on strings. -/
def strContains (hay needle : String) : Bool :=
  containsSub needle.toList hay.toList

/-- Python's `str.lower()` (ASCII suffices for the messages involved). -/
def lowerStr (s : String) : String :=
  String.mk (s.toList.map Char.toLower)

/-- `TwitterService.add_to_list` as a function of the HTTP exchange.
A 429 raises the fixed rate-limit message (which carries no reset time: the
reset header is only logged); a 403 whose body reports "already a member" is
treated as success; any other non-200 raises; network errors raise.
`.ok true` models returning True, `.error msg` models `raise Exception(msg)`. -/
def add_to_list (outcome : HttpOutcome) : Except String Bool :=
  match outcome with
  | .netError e => .error s!"Network error while adding to list: {e}"
  | .resp r =>
    if r.status == 429 then
      .error "Twitter API rate limit exceeded. Please try again later."
    else if r.status == 403
        && r.errorMessages.any (fun msg => strContains (lowerStr msg) "already a member") then
      .ok true
    else if r.status != 200 then
      .error s!"Error adding to list: {r.status}"
    else
      .ok true

/-- `TwitterService.remove_from_list`: 429 raises, 404 is treated as success
(user already absent), other non-200 raises, network errors raise. -/
def remove_from_list (outcome : HttpOutcome) : Except String Bool :=
  match outcome with
  | .netError e => .error s!"Network error while removing from list: {e}"
  | .resp r =>
    if r.status == 429 then
      .error "Twitter API rate limit exceeded. Please try again later."
    else if r.status == 404 then
      .ok true
    else if r.status != 200 then
      .error s!"Error removing from list: {r.status}"
    else
      .ok true

/-- One page response of `GET lists/../members`: the status, the `data`
payload and the `meta.next_token` continuation token. -/
structure PageResp where
  status : Nat
  pageData : List RemoteMember := []
  nextToken : Option String := none
deriving Repr, DecidableEq

/-- Outcome of one page fetch. -/
inductive PageOutcome where
  | resp (p : PageResp)
  | netError (e : String)
deriving Repr, DecidableEq

/-- Loop of `TwitterService.get_list_members`: consume the page responses in
order, accumulating payloads, until a page carries no continuation token.
The model raises a placeholder error if the response sequence runs out while
a token is still pending (the real server always answers; no theorem relies
on that case). -/
def get_list_members_go (acc : List RemoteMember) :
    List PageOutcome → Except String (List RemoteMember)
  | [] => .error "model: response sequence exhausted"
  | .netError e :: _ => .error s!"Network error while fetching list members: {e}"
  | .resp p :: rest =>
    if p.status == 429 then
      .error "Twitter API rate limit exceeded. Please try again later."
    else if p.status != 200 then
      .error s!"Error fetching list members: {p.status}"
    else
      match p.nextToken with
      | none => .ok (acc ++ p.pageData)
      | some _ => get_list_members_go (acc ++ p.pageData) rest

/-- `TwitterService.get_list_members`, starting with an empty accumulator. -/
def get_list_members (pages : List PageOutcome) : Except String (List RemoteMember) :=
  get_list_members_go [] pages

/-- A page fetch that fails: a network error, or any non-200 status
(including 429). -/
def pageFails : PageOutcome → Bool
  | .netError _ => true
  | .resp p => p.status != 200

/-- A successful non-terminal page extends the accumulator and continues with
the remaining responses. -/
theorem get_go_step (acc : List RemoteMember) (p : PageResp) (rest : List PageOutcome)
    (h200 : p.status = 200) (tok : String) (htok : p.nextToken = some tok) :
    get_list_members_go acc (PageOutcome.resp p :: rest)
      = get_list_members_go (acc ++ p.pageData) rest := by
  simp [get_list_members_go, h200, htok]

/-- A successful terminal page (no continuation token) returns the
accumulated members. -/
theorem get_go_last (acc : List RemoteMember) (p : PageResp) (rest : List PageOutcome)
    (h200 : p.status = 200) (htok : p.nextToken = none) :
    get_list_members_go acc (PageOutcome.resp p :: rest) = .ok (acc ++ p.pageData) := by
  simp [get_list_members_go, h200, htok]

/-- A failing page makes the loop raise, whatever was accumulated. -/
theorem get_go_fail (acc : List RemoteMember) (bad : PageOutcome)
    (rest : List PageOutcome) (hb : pageFails bad = true) :
    ∃ e, get_list_members_go acc (bad :: rest) = .error e := by
  cases bad with
  | netError e => exact ⟨_, rfl⟩
  | resp p =>
    cases h429 : p.status == 429 with
    | true =>
      refine ⟨"Twitter API rate limit exceeded. Please try again later.", ?_⟩
      simp [get_list_members_go, h429]
    | false =>
      have hne : (p.status != 200) = true := by
        simpa [pageFails] using hb
      refine ⟨s!"Error fetching list members: {p.status}", ?_⟩
      simp [get_list_members_go, h429, hne]

/-- Running the loop across an all-successful prefix, a terminal page and
arbitrary unconsumed responses. -/
theorem get_go_run (lastPage : PageResp) (hlast : lastPage.status = 200)
    (hlastTok : lastPage.nextToken = none) :
    ∀ (prefixPages : List PageResp) (acc : List RemoteMember) (rest : List PageOutcome),
      (∀ p ∈ prefixPages, p.status = 200 ∧ p.nextToken.isSome) →
      get_list_members_go acc
          (prefixPages.map PageOutcome.resp ++ PageOutcome.resp lastPage :: rest)
        = .ok (acc ++ (prefixPages.map (·.pageData)).flatten ++ lastPage.pageData)
  | [], acc, rest, _ => by
    rw [List.map_nil, List.nil_append, get_go_last acc lastPage rest hlast hlastTok]
    simp
  | p :: ps, acc, rest, h => by
    obtain ⟨hp200, hptok⟩ := h p (List.mem_cons_self p ps)
    obtain ⟨tok, htok⟩ := Option.isSome_iff_exists.mp hptok
    rw [List.map_cons, List.cons_append, get_go_step acc p _ hp200 tok htok,
      get_go_run lastPage hlast hlastTok ps (acc ++ p.pageData) rest
        (fun q hq => h q (List.mem_cons_of_mem p hq))]
    simp [List.append_assoc]

/-- Running the loop across an all-successful prefix into a failing page. -/
theorem get_go_run_fail :
    ∀ (prefixPages : List PageResp) (acc : List RemoteMember) (rest : List PageOutcome),
      (∀ p ∈ prefixPages, p.status = 200 ∧ p.nextToken.isSome) →
      ∀ bad : PageOutcome, pageFails bad = true →
      ∃ e, get_list_members_go acc
          (prefixPages.map PageOutcome.resp ++ bad :: rest) = .error e
  | [], acc, rest, _, bad, hb => by
    rw [List.map_nil, List.nil_append]
    exact get_go_fail acc bad rest hb
  | p :: ps, acc, rest, h, bad, hb => by
    obtain ⟨hp200, hptok⟩ := h p (List.mem_cons_self p ps)
    obtain ⟨tok, htok⟩ := Option.isSome_iff_exists.mp hptok
    rw [List.map_cons, List.cons_append, get_go_step acc p _ hp200 tok htok]
    exact get_go_run_fail ps (acc ++ p.pageData) rest
      (fun q hq => h q (List.mem_cons_of_mem p hq)) bad hb

/-- C6: `get_list_members` follows pagination sequentially — it consumes the
next response only while the previous one carried a continuation token — and
returns the concatenation of all pages exactly when every consumed page
succeeds (responses after the terminal page are never consumed: the result
does not depend on `rest`); if any consumed page fails (network error or any
non-200 status, 429 included), it raises and returns no partial data. -/
theorem get_list_members_atomic_pagination
    (prefixPages : List PageResp) (lastPage : PageResp) (rest : List PageOutcome)
    (hpre : ∀ p ∈ prefixPages, p.status = 200 ∧ p.nextToken.isSome)
    (hlast : lastPage.status = 200) (hlastTok : lastPage.nextToken = none) :
    (get_list_members
        (prefixPages.map PageOutcome.resp ++ PageOutcome.resp lastPage :: rest)
      = .ok ((prefixPages.map (·.pageData)).flatten ++ lastPage.pageData))
    ∧ (∀ bad : PageOutcome, pageFails bad = true →
        ∃ e, get_list_members
            (prefixPages.map PageOutcome.resp ++ bad :: rest) = .error e) := by
  constructor
  · have h := get_go_run lastPage hlast hlastTok prefixPages [] rest hpre
    simpa [get_list_members] using h
  · intro bad hb
    exact get_go_run_fail prefixPages [] rest hpre bad hb

/-- Witness for `get_list_members_atomic_pagination`: one 200 page with a
token followed by a terminal 200 page aggregates both payloads; replacing the
terminal page by a 429 raises. -/
theorem get_list_members_atomic_pagination_witness :
    (get_list_members
        [PageOutcome.resp { status := 200, pageData := [⟨"1", "a", none⟩], nextToken := some "tk" },
         PageOutcome.resp { status := 200, pageData := [⟨"2", "b", none⟩] }]
      = .ok [⟨"1", "a", none⟩, ⟨"2", "b", none⟩])
    ∧ (∃ e, get_list_members
        [PageOutcome.resp { status := 200, pageData := [⟨"1", "a", none⟩], nextToken := some "tk" },
         PageOutcome.resp { status := 429 }] = .error e) := by
  have h := get_list_members_atomic_pagination
      [{ status := 200, pageData := [⟨"1", "a", none⟩], nextToken := some "tk" }]
      { status := 200, pageData := [⟨"2", "b", none⟩] } []
      (by decide) rfl rfl
  constructor
  · have h1 := h.1
    simpa using h1
  · have h2 := h.2 (PageOutcome.resp { status := 429 }) (by decide)
    simpa using h2

/-! ## Idempotence of add/remove against the remote list semantics (§6) -/

/-- The remote list API semantics from the spec's interface section: adding a
present member answers 403 with an already-a-member error in the body; adding
an absent member answers 200 and inserts it. -/
def remoteAdd (memberIds : List String) (uid : String) : HttpResp × List String :=
  if memberIds.contains uid then
    ({ status := 403,
       errorMessages := ["User is already a member of this List."] }, memberIds)
  else
    ({ status := 200 }, uid :: memberIds)

/-- Removing a present member answers 200 and deletes it; removing an absent
member answers 404. -/
def remoteRemove (memberIds : List String) (uid : String) : HttpResp × List String :=
  if memberIds.contains uid then
    ({ status := 200 }, memberIds.filter (fun x => x != uid))
  else
    ({ status := 404 }, memberIds)

/-- One `add_to_list` call against the semantic remote list. -/
def addMemberOp (memberIds : List String) (uid : String) :
    Except String Bool × List String :=
  (add_to_list (.resp (remoteAdd memberIds uid).1), (remoteAdd memberIds uid).2)

/-- One `remove_from_list` call against the semantic remote list. -/
def removeMemberOp (memberIds : List String) (uid : String) :
    Except String Bool × List String :=
  (remove_from_list (.resp (remoteRemove memberIds uid).1), (remoteRemove memberIds uid).2)

/-- Filtering a member out leaves no occurrence to find. -/
theorem not_mem_filter_ne (s : List String) (uid : String) :
    uid ∉ s.filter (fun x => x != uid) := by
  intro hmem
  have hne := (List.mem_filter.mp hmem).2
  simp at hne

/-- C7: `add_to_list` succeeds on an already-a-member 403 and
`remove_from_list` succeeds on a 404, so a second call of either operation
for the same user returns success and leaves the remote member set exactly
where the first call left it. -/
theorem add_remove_idempotent (s : List String) (uid : String) :
    ((addMemberOp s uid).1 = .ok true)
    ∧ ((addMemberOp (addMemberOp s uid).2 uid).1 = .ok true)
    ∧ ((addMemberOp (addMemberOp s uid).2 uid).2 = (addMemberOp s uid).2)
    ∧ ((removeMemberOp s uid).1 = .ok true)
    ∧ ((removeMemberOp (removeMemberOp s uid).2 uid).1 = .ok true)
    ∧ ((removeMemberOp (removeMemberOp s uid).2 uid).2 = (removeMemberOp s uid).2) := by
  have h403 : add_to_list (HttpOutcome.resp
      { status := 403,
        errorMessages := ["User is already a member of this List."] }) = .ok true := rfl
  have h200add : add_to_list (HttpOutcome.resp { status := 200 }) = .ok true := rfl
  have h200rem : remove_from_list (HttpOutcome.resp { status := 200 }) = .ok true := rfl
  have h404 : remove_from_list (HttpOutcome.resp { status := 404 }) = .ok true := rfl
  by_cases hmem : uid ∈ s
  · refine ⟨?_, ?_, ?_, ?_, ?_, ?_⟩
    · simp [addMemberOp, remoteAdd, hmem, h403]
    · simp [addMemberOp, remoteAdd, hmem, h403]
    · simp [addMemberOp, remoteAdd, hmem]
    · simp [removeMemberOp, remoteRemove, hmem, h200rem]
    · simp [removeMemberOp, remoteRemove, hmem, not_mem_filter_ne, h404]
    · simp [removeMemberOp, remoteRemove, hmem, not_mem_filter_ne]
  · refine ⟨?_, ?_, ?_, ?_, ?_, ?_⟩
    · simp [addMemberOp, remoteAdd, hmem, h200add]
    · simp [addMemberOp, remoteAdd, hmem, List.mem_cons_self, h403]
    · simp [addMemberOp, remoteAdd, hmem, List.mem_cons_self]
    · simp [removeMemberOp, remoteRemove, hmem, h404]
    · simp [removeMemberOp, remoteRemove, hmem, h404]
    · simp [removeMemberOp, remoteRemove, hmem]

/-! ## The approval workflow (`approve` in `app/routes/admin.py`) -/

/-- The rate-limit telemetry of the last API call (remaining quota, reset
epoch time). -/
structure RateLimitInfo where
  remaining : Nat
  reset : Nat
deriving Repr, DecidableEq

/-- Modelled from the spec: `TwitterService.get_rate_limit_info` is called by
`store_rate_limit_info` in `app/routes/admin.py` but its definition is
missing from `app/services/twitter_service.py` in the tree.  Per the spec,
every remote call may update process-visible rate-limit telemetry (remaining
quota, reset time) which the caller surfaces to operators; the telemetry is
advisory and never blocks or fails a call.  The model therefore reports the
telemetry observed on the last call, if any, and never raises. -/
def get_rate_limit_info (telemetry : Option RateLimitInfo) : Option RateLimitInfo :=
  telemetry

/-- `store_rate_limit_info` from `app/routes/admin.py`: store the telemetry
in the session when the service reports some. -/
def store_rate_limit_info (telemetry : Option RateLimitInfo)
    (session : Option RateLimitInfo) : Option RateLimitInfo :=
  match get_rate_limit_info telemetry with
  | some info => some info
  | none => session

/-- `Submission.approve` from `app/models.py`: set status approved, store the
resolved user id, stamp the processing time. -/
def Submission.approve (s : Submission) (uid : String) (now : Int) : Submission :=
  { s with
    status := STATUS_APPROVED
    twitter_user_id := some uid
    processed_at := some now }

/-- The JSON reply of the approve endpoint. -/
structure ApproveReply where
  httpStatus : Nat
  success : Bool
  message : String
deriving Repr, DecidableEq

/-- Second half of the `approve` route, after the user id is resolved (and,
when freshly looked up, committed on the submission): call `add_to_list`,
store the rate-limit telemetry, mark the submission approved and commit.  On
a raised error the transaction is rolled back to the last commit, so the
submission keeps its status (and any already-committed cached id). -/
def approveWithId (submission : Submission) (uid : String)
    (addOutcome : HttpOutcome) (telemetry : Option RateLimitInfo)
    (session : Option RateLimitInfo) (now : Int) :
    Submission × Option RateLimitInfo × ApproveReply :=
  match add_to_list addOutcome with
  | .error e =>
    (submission, session,
     { httpStatus := 500, success := false, message := s!"Error: {e}" })
  | .ok _ =>
    let handle := submission.twitter_handle
    (submission.approve uid now, store_rate_limit_info telemetry session,
     { httpStatus := 200, success := true,
       message := s!"Successfully approved @{handle} and added to Twitter list" })

/-- The `approve` route of `app/routes/admin.py`.

`lookupOutcome` is what `twitter.get_user_id` would do (consulted only when
the submission has no cached id), `addOutcome` the HTTP exchange of
`twitter.add_to_list`, `telemetry` what the telemetry read reports after that
call, and `session` the stored telemetry before the request.  Returns the
persisted submission, the stored session telemetry, and the JSON reply. -/
def approve (submission : Submission) (lookupOutcome : Except String String)
    (addOutcome : HttpOutcome) (telemetry : Option RateLimitInfo)
    (session : Option RateLimitInfo) (now : Int) :
    Submission × Option RateLimitInfo × ApproveReply :=
  let currentStatus := submission.status
  if submission.status != STATUS_PENDING then
    (submission, session,
     { httpStatus := 400, success := false,
       message := s!"Submission is already {currentStatus}" })
  else
    match submission.twitter_user_id with
    | some uid => approveWithId submission uid addOutcome telemetry session now
    | none =>
      match lookupOutcome with
      | .error e =>
        (submission, session,
         { httpStatus := 500, success := false, message := s!"Error: {e}" })
      | .ok uid =>
        approveWithId { submission with twitter_user_id := some uid } uid
          addOutcome telemetry session now

/-- C2: approving a pending submission whose user id resolves (from the cache
or from a successful lookup) and whose `add_to_list` call succeeds marks it
approved, stores the resolved id, stamps the processing time and reports
success; approving a submission that is not pending replies 400 and changes
nothing. -/
theorem approve_transitions (submission : Submission)
    (lookupOutcome : Except String String) (addOutcome : HttpOutcome)
    (telemetry session : Option RateLimitInfo) (now : Int) (uid : String) :
    (submission.status = STATUS_PENDING →
      (submission.twitter_user_id = some uid
        ∨ (submission.twitter_user_id = none ∧ lookupOutcome = Except.ok uid)) →
      add_to_list addOutcome = .ok true →
      ((approve submission lookupOutcome addOutcome telemetry session now).1.status
          = STATUS_APPROVED
        ∧ (approve submission lookupOutcome addOutcome telemetry session now).1.twitter_user_id
            = some uid
        ∧ (approve submission lookupOutcome addOutcome telemetry session now).1.processed_at
            = some now
        ∧ (approve submission lookupOutcome addOutcome telemetry session now).2.2.success
            = true
        ∧ (approve submission lookupOutcome addOutcome telemetry session now).2.2.httpStatus
            = 200))
    ∧ (submission.status ≠ STATUS_PENDING →
        ((approve submission lookupOutcome addOutcome telemetry session now).1
            = submission
          ∧ (approve submission lookupOutcome addOutcome telemetry session now).2.1
              = session
          ∧ (approve submission lookupOutcome addOutcome telemetry session now).2.2.httpStatus
              = 400
          ∧ (approve submission lookupOutcome addOutcome telemetry session now).2.2.success
              = false)) := by
  constructor
  · intro hpending hid hadd
    have hne : (submission.status != STATUS_PENDING) = false := by
      simp [hpending]
    rcases hid with hcached | ⟨hnone, hok⟩
    · simp [approve, hne, hcached, approveWithId, hadd, Submission.approve]
    · simp [approve, hne, hnone, hok, approveWithId, hadd, Submission.approve]
  · intro hnot
    have hne : (submission.status != STATUS_PENDING) = true := by
      simp [hnot]
    simp [approve, hne]

/-- Concrete pending submission used by the approval witnesses. -/
def pendSub : Submission where
  id := 1
  email := "a@b.c"
  twitter_handle := "x"
  status := "pending"

/-- Witness for `approve_transitions`: a pending submission, a successful
lookup and a 200 add call produce an approved submission. -/
theorem approve_transitions_witness :
    (approve pendSub (Except.ok "9") (.resp { status := 200 }) none none 11).1.status
        = STATUS_APPROVED
    ∧ (approve pendSub (Except.ok "9") (.resp { status := 200 }) none none 11).1.twitter_user_id
        = some "9"
    ∧ (approve pendSub (Except.ok "9") (.resp { status := 200 }) none none 11).1.processed_at
        = some 11 := by
  have h := (approve_transitions pendSub (Except.ok "9") (.resp { status := 200 })
      none none 11 "9").1 rfl (Or.inr ⟨rfl, rfl⟩) rfl
  exact ⟨h.1, h.2.1, h.2.2.1⟩

/-- C5 counterexample: a rate-limited `add_to_list` response carrying a
concrete reset header produces, through `approve`, the fixed error message —
it contains no digits at all, hence no reset time, and it is identical for a
different reset header, so the surfaced error cannot carry the reset time. -/
theorem approve_rate_limit_no_reset_counterexample :
    ((approve pendSub (Except.ok "9")
        (.resp { status := 429, rateLimitReset := some 1762982832 }) none none 11).2.2.message
      = "Error: Twitter API rate limit exceeded. Please try again later.")
    ∧ ((approve pendSub (Except.ok "9")
        (.resp { status := 429, rateLimitReset := some 1762982832 }) none none 11).2.2.message.toList.all
        (fun c => !c.isDigit) = true)
    ∧ ((approve pendSub (Except.ok "9")
        (.resp { status := 429, rateLimitReset := some 1762982832 }) none none 11).2.2.message
      = (approve pendSub (Except.ok "9")
        (.resp { status := 429, rateLimitReset := some 999 }) none none 11).2.2.message)
    ∧ ((approve pendSub (Except.ok "9")
        (.resp { status := 429, rateLimitReset := some 1762982832 }) none none 11).1.status
      = STATUS_PENDING) := by
  refine ⟨rfl, ?_, rfl, rfl⟩
  decide

/-- C5 as amended: a rate-limited `add_to_list` failure leaves the submission
pending (never approved) and surfaces a rate-limited 500 error to the caller,
but that error is the fixed message without the reset time. -/
theorem approve_rate_limited_leaves_pending (submission : Submission)
    (lookupOutcome : Except String String) (r : HttpResp)
    (telemetry session : Option RateLimitInfo) (now : Int) (uid : String)
    (hpending : submission.status = STATUS_PENDING)
    (hid : submission.twitter_user_id = some uid
      ∨ (submission.twitter_user_id = none ∧ lookupOutcome = Except.ok uid))
    (h429 : r.status = 429) :
    ((approve submission lookupOutcome (.resp r) telemetry session now).1.status
        = STATUS_PENDING)
    ∧ ((approve submission lookupOutcome (.resp r) telemetry session now).2.2.httpStatus
        = 500)
    ∧ ((approve submission lookupOutcome (.resp r) telemetry session now).2.2.message
        = "Error: Twitter API rate limit exceeded. Please try again later.")
    ∧ strContains
        (lowerStr (approve submission lookupOutcome (.resp r) telemetry session now).2.2.message)
        "rate limit exceeded" = true
    ∧ ((approve submission lookupOutcome (.resp r) telemetry session now).2.2.message.toList.all
        (fun c => !c.isDigit) = true) := by
  have hne : (submission.status != STATUS_PENDING) = false := by
    simp [hpending]
  have hadd : add_to_list (.resp r) =
      .error "Twitter API rate limit exceeded. Please try again later." := by
    simp [add_to_list, h429]
  have hmsg :
      (approve submission lookupOutcome (.resp r) telemetry session now).2.2.message
        = "Error: Twitter API rate limit exceeded. Please try again later."
      ∧ (approve submission lookupOutcome (.resp r) telemetry session now).1.status
          = STATUS_PENDING
      ∧ (approve submission lookupOutcome (.resp r) telemetry session now).2.2.httpStatus
          = 500 := by
    rcases hid with hcached | ⟨hnone, hok⟩
    · refine ⟨?_, ?_, ?_⟩
      · simp [approve, hne, hcached, approveWithId, hadd]
        rfl
      · simp [approve, hne, hcached, approveWithId, hadd, hpending]
      · simp [approve, hne, hcached, approveWithId, hadd]
    · refine ⟨?_, ?_, ?_⟩
      · simp [approve, hne, hnone, hok, approveWithId, hadd]
        rfl
      · simp [approve, hne, hnone, hok, approveWithId, hadd, hpending]
      · simp [approve, hne, hnone, hok, approveWithId, hadd]
  refine ⟨hmsg.2.1, hmsg.2.2, hmsg.1, ?_, ?_⟩
  · rw [hmsg.1]
    decide
  · rw [hmsg.1]
    decide

/-- Witness for `approve_rate_limited_leaves_pending` at the concrete pending
submission and a concrete 429 response. -/
theorem approve_rate_limited_leaves_pending_witness :
    ((approve pendSub (Except.ok "9")
        (.resp { status := 429, rateLimitReset := some 5 }) none none 11).1.status
      = STATUS_PENDING)
    ∧ ((approve pendSub (Except.ok "9")
        (.resp { status := 429, rateLimitReset := some 5 }) none none 11).2.2.httpStatus
      = 500) := by
  have h := approve_rate_limited_leaves_pending pendSub (Except.ok "9")
      { status := 429, rateLimitReset := some 5 } none none 11 "9"
      rfl (Or.inr ⟨rfl, rfl⟩) rfl
  exact ⟨h.1, h.2.1⟩

/-! ## The public submission handler (`submit` in `app/routes/public.py`) -/

/-- Strip leading and trailing whitespace from a character list
(Python's `str.strip()`). -/
def stripList (l : List Char) : List Char :=
  ((l.dropWhile Char.isWhitespace).reverse.dropWhile Char.isWhitespace).reverse

/-- `Submission.normalize_handle` from `app/models.py`:
`handle.lstrip('@').lower().strip()`. -/
def normalize_handle (handle : String) : String :=
  String.mk (stripList ((handle.toList.dropWhile (fun c => c == '@')).map Char.toLower))

/-- The `Submission(...)` constructor from `app/models.py`: email lowercased
and stripped, handle normalized, status defaulting to pending.  `id` models
the database-assigned primary key. -/
def mkSubmission (id : Nat) (email handle : String) : Submission where
  id := id
  email := String.mk (stripList (email.toList.map Char.toLower))
  twitter_handle := normalize_handle handle
  status := STATUS_PENDING

/-- Per-handle outcome of the submit loop. -/
inductive SubmitOutcome where
  | created
  | skippedPending
  | skippedApproved
  | resubmitted
deriving Repr, DecidableEq

/-- One iteration of the handle loop in `public.submit`: look the normalized
handle up; skip when the existing submission is pending or approved; when it
is rejected (any other status), delete it and insert a fresh pending
submission; when none exists, insert one. -/
def submitHandle (db : List Submission) (email handle : String) (newId : Nat) :
    List Submission × SubmitOutcome :=
  let normalized := normalize_handle handle
  match db.find? (fun s => s.twitter_handle == normalized) with
  | some existing =>
    if existing.status == STATUS_PENDING then (db, .skippedPending)
    else if existing.status == STATUS_APPROVED then (db, .skippedApproved)
    else
      (mkSubmission newId email handle :: db.erase existing, .resubmitted)
  | none => (mkSubmission newId email handle :: db, .created)

/-- In a table with duplicate-free handles, deleting a row removes the only
occurrence of its handle. -/
theorem not_mem_map_handle_erase (db : List Submission) (existing : Submission)
    (huniq : (db.map (·.twitter_handle)).Nodup) (hmem : existing ∈ db) :
    existing.twitter_handle ∉ (db.erase existing).map (·.twitter_handle) := by
  induction db with
  | nil => cases hmem
  | cons q db ih =>
    simp only [List.map_cons, List.nodup_cons] at huniq
    by_cases hq : q = existing
    · subst hq
      rw [List.erase_cons_head]
      exact huniq.1
    · have hne : ¬ ((q == existing) = true) := by
        simp only [beq_iff_eq]
        exact hq
      rw [List.erase_cons_tail hne]
      simp only [List.map_cons, List.mem_cons]
      have hex2 : existing ∈ db := by
        rcases List.mem_cons.mp hmem with h1 | h2
        · exact absurd h1.symm hq
        · exact h2
      rintro (heq | hmem2)
      · exact huniq.1 (heq ▸ List.mem_map_of_mem (·.twitter_handle) hex2)
      · exact ih huniq.2 hex2 hmem2

/-- C9: the at-most-one-submission-per-normalized-handle invariant is
preserved by every submit outcome; a handle whose existing submission is
pending or approved is skipped with no change; a handle whose existing
submission is rejected has the old row deleted and a fresh pending submission
created for that normalized handle; a new handle gets a fresh pending row. -/
theorem submission_uniqueness (db : List Submission) (email handle : String)
    (newId : Nat) (huniq : (db.map (·.twitter_handle)).Nodup) :
    (((submitHandle db email handle newId).1.map (·.twitter_handle)).Nodup)
    ∧ (∀ s, db.find? (fun s2 => s2.twitter_handle == normalize_handle handle) = some s →
        s.status = STATUS_PENDING →
        submitHandle db email handle newId = (db, SubmitOutcome.skippedPending))
    ∧ (∀ s, db.find? (fun s2 => s2.twitter_handle == normalize_handle handle) = some s →
        s.status = STATUS_APPROVED →
        submitHandle db email handle newId = (db, SubmitOutcome.skippedApproved))
    ∧ (∀ s, db.find? (fun s2 => s2.twitter_handle == normalize_handle handle) = some s →
        s.status ≠ STATUS_PENDING → s.status ≠ STATUS_APPROVED →
        submitHandle db email handle newId
          = (mkSubmission newId email handle :: db.erase s, SubmitOutcome.resubmitted))
    ∧ (db.find? (fun s2 => s2.twitter_handle == normalize_handle handle) = none →
        submitHandle db email handle newId
          = (mkSubmission newId email handle :: db, SubmitOutcome.created))
    ∧ (mkSubmission newId email handle).twitter_handle = normalize_handle handle
    ∧ (mkSubmission newId email handle).status = STATUS_PENDING := by
  refine ⟨?_, ?_, ?_, ?_, ?_, rfl, rfl⟩
  · cases hf : db.find? (fun s => s.twitter_handle == normalize_handle handle) with
    | none =>
      simp only [submitHandle, hf, List.map_cons, List.nodup_cons]
      refine ⟨?_, huniq⟩
      intro hmem
      obtain ⟨t, ht, hth⟩ := List.mem_map.mp hmem
      have := List.find?_eq_none.mp hf t ht
      simp only [beq_iff_eq] at this
      refine this ?_
      rw [hth]
      rfl
    | some existing =>
      have hexmem := List.mem_of_find?_eq_some hf
      have hexh : existing.twitter_handle = normalize_handle handle := by
        have hfs := List.find?_some hf
        simpa using hfs
      simp only [submitHandle, hf]
      by_cases hp : existing.status == STATUS_PENDING
      · simp only [hp, if_true]
        exact huniq
      · by_cases ha : existing.status == STATUS_APPROVED
        · simp only [hp, ha, Bool.false_eq_true, if_false, if_true]
          exact huniq
        · simp only [hp, ha, Bool.false_eq_true, if_false, List.map_cons,
            List.nodup_cons]
          refine ⟨?_, ?_⟩
          · rw [show (mkSubmission newId email handle).twitter_handle
                = normalize_handle handle from rfl, ← hexh]
            exact not_mem_map_handle_erase db existing huniq hexmem
          · exact ((List.erase_sublist existing db).map (·.twitter_handle)).nodup huniq
  · intro s hs hp
    have hpb : (s.status == STATUS_PENDING) = true := by simp [hp]
    simp [submitHandle, hs, hpb]
  · intro s hs ha
    have hpb : (s.status == STATUS_PENDING) = false := by
      rw [beq_eq_false_iff_ne, ha]
      intro hcontra
      exact absurd hcontra (by decide)
    have hab : (s.status == STATUS_APPROVED) = true := by simp [ha]
    simp [submitHandle, hs, hpb, hab]
  · intro s hs hp ha
    have hpb : (s.status == STATUS_PENDING) = false := by
      rw [beq_eq_false_iff_ne]
      exact hp
    have hab : (s.status == STATUS_APPROVED) = false := by
      rw [beq_eq_false_iff_ne]
      exact ha
    simp [submitHandle, hs, hpb, hab]
  · intro hf
    simp [submitHandle, hf]

/-- Concrete rejected submission used by the uniqueness witness. -/
def rejSub : Submission where
  id := 1
  email := "e@x.y"
  twitter_handle := "x"
  status := "rejected"

/-- Witness for `submission_uniqueness`: re-submitting a handle whose only
existing submission is rejected replaces it with a fresh pending one, and the
one-row-per-handle invariant still holds. -/
theorem submission_uniqueness_witness :
    (((submitHandle [rejSub] "a@b.c" "@X " 2).1.map (·.twitter_handle)).Nodup)
    ∧ submitHandle [rejSub] "a@b.c" "@X " 2
        = (mkSubmission 2 "a@b.c" "@X " :: [], SubmitOutcome.resubmitted) := by
  have h := submission_uniqueness [rejSub] "a@b.c" "@X " 2 (by decide)
  refine ⟨h.1, ?_⟩
  have h4 := h.2.2.2.1 rejSub (by decide) (by decide) (by decide)
  rw [h4]
  rfl

end SharkList
